import Mathlib

/-!
Verification of the StarNet data pipeline, embedded from
`src/CNN/DataDriven_StarNet_CNN.ipynb` (the "Load non-normalized spectra"
cell and the label-normalization cell).  Numeric values are modelled as
exact rationals; a flux value is `Option ℚ`, with `none` playing the role
of a numpy NaN entry.
-/

namespace StarNet

/-- A flux value of a spectrum; `none` models a NaN sensor gap. -/
abbrev Flux := Option ℚ

/-- A spectrum is the ordered list of its flux values. -/
abbrev Spectrum := List Flux

/-- Embeds the NaN replacement
`indices_nan = np.where(np.isnan(spectra)); spectra[indices_nan] = 0.`:
every NaN flux becomes the value 0, every other flux keeps its value. -/
def fixNaN (s : Spectrum) : Spectrum :=
  s.map (fun f => some (f.getD 0))

/-- Numeric value of a flux entry (a NaN entry reads as 0; the pipeline only
reads values after `fixNaN`, where no NaN is left). -/
def fluxVal (f : Flux) : ℚ :=
  f.getD 0

/-- Numeric contents of a spectrum. -/
def specVals (s : Spectrum) : List ℚ :=
  s.map fluxVal

/-- Arithmetic mean of a list, as in `np.mean` and inside `np.std`. -/
def listMean (xs : List ℚ) : ℚ :=
  xs.sum / xs.length

/-- Population variance, the square of `np.std xs`.  The code filters rows on
`spec_std != 0.`; in exact arithmetic the standard deviation of a row is zero
exactly when its variance is, so the filter is embedded through the
variance. -/
def listVar (xs : List ℚ) : ℚ :=
  (xs.map (fun x => (x - listMean xs) ^ 2)).sum / xs.length

/-- The row predicate behind `indices = np.where(spec_std != 0.)[0]`, applied
to a spectrum that has already gone through `fixNaN` (the code zeroes the NaN
entries before computing `spec_std = np.std(spectra, axis=1)`). -/
def keepSpec (s : Spectrum) : Bool :=
  decide (listVar (specVals s) ≠ 0)

/-- Embeds the cleaning steps of the loading cell: set NaN fluxes to zero,
then keep exactly the rows whose per-spectrum standard deviation is nonzero,
selecting the same row indices from the spectra and from the labels
(`spectra = spectra[indices]; labels = labels[indices]`).  The two parallel
numpy arrays are modelled as the two components of a zipped row table. -/
def preprocess (spectra : List Spectrum) (labels : List (List ℚ)) :
    List Spectrum × List (List ℚ) :=
  ((((spectra.map fixNaN).zip labels).filter (fun p => keepSpec p.1)).map Prod.fst,
   (((spectra.map fixNaN).zip labels).filter (fun p => keepSpec p.1)).map Prod.snd)

/-- Per-label-dimension normalization statistics, the two rows of the
`mean_and_std` array: `mean_labels = mean_and_std[0]` and
`std_labels = mean_and_std[1]`. -/
structure NormStats where
  mean : List ℚ
  std : List ℚ
deriving DecidableEq

/-- Embeds `def normalize(lb): return (lb-mean_labels)/std_labels`, the
element-wise mean/std scaling of a label vector. -/
def normalize (stats : NormStats) (lb : List ℚ) : List ℚ :=
  List.zipWith (fun x ms => (x - ms.1) / ms.2) lb (stats.mean.zip stats.std)

/-- Modelled from the spec: the inverse transform `x*std + mean`
(`LabelNormalizer.invert`).  The denormalization code itself lives in
`5_Test_Model.ipynb` and `6_Error_Propogation.ipynb`, which are not under
`src/`; only the README lists them. -/
def denormalize (stats : NormStats) (lb : List ℚ) : List ℚ :=
  List.zipWith (fun x ms => x * ms.2 + ms.1) lb (stats.mean.zip stats.std)

/-- Error taxonomy of the spec for label normalization. -/
inductive NormError
  | degenerateDimension
deriving DecidableEq

/-- The code's `normalize` with its error behaviour made explicit: numpy
element-wise division emits warnings and IEEE special values on a zero
divisor but never raises, so the code path always returns a result array and
never an error. -/
def normalizeE (stats : NormStats) (lb : List ℚ) : Except NormError (List ℚ) :=
  Except.ok (normalize stats lb)

/-- Stated from the spec's words, for comparison with `normalizeE`:
`apply` "fails with DegenerateDimensionError if any dimension's standard
deviation is zero" and otherwise performs the element-wise scaling. -/
def applySpec (stats : NormStats) (lb : List ℚ) : Except NormError (List ℚ) :=
  if stats.std.any (fun s => decide (s = 0)) then
    Except.error NormError.degenerateDimension
  else
    Except.ok (normalize stats lb)

/-- Recognizer for the degenerate-dimension error outcome. -/
def isErrorDeg : Except NormError (List ℚ) → Bool
  | Except.error NormError.degenerateDimension => true
  | _ => false

/-- Persistence row layout read by the loading cell:
`mean_labels = mean_and_std[0]` and `std_labels = mean_and_std[1]`. -/
def loadStats (arr : List (List ℚ)) : NormStats :=
  { mean := arr.getD 0 [], std := arr.getD 1 [] }

/-- Embeds `num_labels = mean_and_std.shape[1]`: the label dimension read
back from the column count of the persisted array. -/
def numLabelsOf (arr : List (List ℚ)) : ℕ :=
  (arr.getD 0 []).length

/-- Modelled from the spec: the writing side of the `mean_and_std` array
(spec section 6, a 2-row array holding the means and then the standard
deviations); the notebook that saves it, `3_Preprocessing_of_Test_Data.ipynb`,
is not under `src/` (only the README lists it). -/
def saveStats (s : NormStats) : List (List ℚ) :=
  [s.mean, s.std]

/-- Rows of `reference_data = np.column_stack((spectra, labels))`: each row
of the stacked matrix is a spectrum row followed by its label row. -/
def columnStack (A B : List (List ℚ)) : List (List ℚ) :=
  List.zipWith (fun r l => r ++ l) A B

/-- One swap of the Fisher-Yates loop inside `np.random.shuffle`: exchange
the entries at positions `i` and `j` (out-of-range indices leave the list
unchanged; the loop below only produces in-range indices). -/
def swapAt2 (xs : List α) (i j : ℕ) : List α :=
  match xs.get? i, xs.get? j with
  | some a, some b => (xs.set i b).set j a
  | _, _ => xs

/-- The Fisher-Yates loop of `np.random.shuffle`: for `i` from `n-1` down to
`1`, draw `j` uniformly in `[0, i]` and swap positions `i` and `j`.  The
ambient numpy global generator is modelled as the stream `g` of draws; the
`k`-th draw is `g k`, reduced modulo `i+1` to land in `[0, i]`. -/
def fyGo (g : ℕ → ℕ) : ℕ → ℕ → List α → List α
  | _, 0, xs => xs
  | k, i + 1, xs => fyGo g (k + 1) i (swapAt2 xs (i + 1) (g k % (i + 2)))

/-- Embeds `np.random.shuffle(reference_data)`: an in-place Fisher-Yates
shuffle of the rows, driven by the ambient global generator `g` (the
notebook never seeds numpy's global state). -/
def npShuffle (g : ℕ → ℕ) (xs : List α) : List α :=
  fyGo g 0 (xs.length - 1) xs

/-- Embeds `num_train = int(0.9 * len(labels))`, generalized to the fraction
`t` the spec calls `trainFraction` (the notebook instantiates `t = 0.9`);
Python `int` truncation agrees with the floor for a nonnegative argument. -/
def numTrainOf (t : ℚ) (n : ℕ) : ℕ :=
  (⌊t * n⌋).toNat

/-- The four arrays produced by the splitting cell. -/
structure SplitResult where
  trainSpectra : List (List ℚ)
  trainLabels : List (List ℚ)
  cvSpectra : List (List ℚ)
  cvLabels : List (List ℚ)
deriving DecidableEq

/-- Embeds the slicing of the shuffled `reference_data`:
`train_spectra = reference_data[0:num_train, 0:num_fluxes]`,
`train_labels = reference_data[0:num_train, num_fluxes:]`, and the `cv_*`
pair from rows `num_train:` (the later reshape of the spectra to
`(n, num_fluxes, 1)` is a structural transform of each row and is embedded
separately as `reshapeForConv`). -/
def splitData (g : ℕ → ℕ) (nTrain numFluxes : ℕ) (A B : List (List ℚ)) :
    SplitResult :=
  { trainSpectra := ((npShuffle g (columnStack A B)).take nTrain).map
      (fun r => r.take numFluxes)
    trainLabels := ((npShuffle g (columnStack A B)).take nTrain).map
      (fun r => r.drop numFluxes)
    cvSpectra := ((npShuffle g (columnStack A B)).drop nTrain).map
      (fun r => r.take numFluxes)
    cvLabels := ((npShuffle g (columnStack A B)).drop nTrain).map
      (fun r => r.drop numFluxes) }

/-- Embeds `spectra.reshape(n, num_fluxes, 1)`: each flux scalar becomes a
length-1 channel vector. -/
def reshapeForConv (m : List (List ℚ)) : List (List (List ℚ)) :=
  m.map (fun r => r.map (fun x => [x]))

/-- The whole loading cell after the h5 read: compute `num_fluxes` from the
raw array shape and `num_train` from the raw (pre-filter) length, clean the
rows, column-stack, shuffle with the ambient generator `g`, and slice.  Both
`num_fluxes` and `num_train` are read before the NaN/zero-variance filtering,
exactly as in the source order. -/
def pipeline (g : ℕ → ℕ) (t : ℚ) (spectra : List Spectrum)
    (labels : List (List ℚ)) : SplitResult :=
  splitData g (numTrainOf t labels.length) (spectra.headD []).length
    ((preprocess spectra labels).1.map specVals) (preprocess spectra labels).2

/-- Error taxonomy of the spec for the error-propagation stage. -/
inductive PropError
  | insufficientSamples
  | propagationFailed
deriving DecidableEq

/-- Summary of one uncertainty estimate: the denormalized ensemble together
with its per-dimension mean and per-dimension variance (the variance is the
square of the reported ensemble standard deviation). -/
structure PropResult where
  ensemble : List (List ℚ)
  mean : List ℚ
  variance : List ℚ
deriving DecidableEq

/-- Modelled from the spec: the ErrorPropagator of
`6_Error_Propogation.ipynb` is not under `src/` (only the README lists it).
Spec section 4.5: produce `K` ensemble predictions through the opaque model
interface `predict`, fail with `InsufficientSamplesError` when `K < 2`, fail
with `PropagationError` when any member's forward pass throws, otherwise
denormalize every member and aggregate per-dimension mean and spread. -/
def errorPropagate (stats : NormStats) (K : ℕ)
    (predict : ℕ → Except Unit (List ℚ)) : Except PropError PropResult :=
  if K < 2 then
    Except.error PropError.insufficientSamples
  else
    match (List.range K).mapM predict with
    | Except.error _ => Except.error PropError.propagationFailed
    | Except.ok raws =>
        Except.ok
          { ensemble := raws.map (denormalize stats)
            mean := (raws.map (denormalize stats)).transpose.map listMean
            variance := (raws.map (denormalize stats)).transpose.map listVar }

/-- Setting position `m` to `c` after pulling its old value `b` to the front
is a permutation of pushing `c` to the front instead. -/
theorem cons_set_perm : ∀ (t : List α) (m : ℕ) (b c : α),
    t.get? m = some b → (b :: t.set m c).Perm (c :: t) := by
  intro t
  induction t with
  | nil => intro m b c h; cases h
  | cons d t ih =>
    intro m b c h
    cases m with
    | zero =>
      rw [List.get?_cons_zero] at h
      injection h with h
      subst h
      simp only [List.set_cons_zero]
      exact List.Perm.swap c d t
    | succ m =>
      rw [List.get?_cons_succ] at h
      simp only [List.set_cons_succ]
      exact ((List.Perm.swap d b _).trans ((ih m b c h).cons d)).trans
        (List.Perm.swap c d t)

/-- Exchanging the values at two in-range positions permutes the list. -/
theorem set_set_perm : ∀ (l : List α) (i j : ℕ) (a b : α),
    l.get? i = some a → l.get? j = some b → ((l.set i b).set j a).Perm l := by
  intro l
  induction l with
  | nil => intro i j a b h; cases h
  | cons c t ih =>
    intro i j a b h1 h2
    cases i with
    | zero =>
      rw [List.get?_cons_zero] at h1
      injection h1 with h1
      subst h1
      cases j with
      | zero =>
        rw [List.get?_cons_zero] at h2
        injection h2 with h2
        subst h2
        simp only [List.set_cons_zero]
        exact List.Perm.refl _
      | succ j =>
        rw [List.get?_cons_succ] at h2
        simp only [List.set_cons_zero, List.set_cons_succ]
        exact cons_set_perm t j b c h2
    | succ i =>
      rw [List.get?_cons_succ] at h1
      cases j with
      | zero =>
        rw [List.get?_cons_zero] at h2
        injection h2 with h2
        subst h2
        simp only [List.set_cons_succ, List.set_cons_zero]
        exact cons_set_perm t i a c h1
      | succ j =>
        rw [List.get?_cons_succ] at h2
        simp only [List.set_cons_succ]
        exact (ih i j a b h1 h2).cons c

/-- One Fisher-Yates swap permutes the list. -/
theorem swapAt2_perm (xs : List α) (i j : ℕ) : (swapAt2 xs i j).Perm xs := by
  unfold swapAt2
  split
  next a b h1 h2 => exact set_set_perm xs i j a b h1 h2
  next => exact List.Perm.refl xs

/-- The Fisher-Yates loop permutes the list. -/
theorem fyGo_perm (g : ℕ → ℕ) : ∀ (i k : ℕ) (xs : List α), (fyGo g k i xs).Perm xs := by
  intro i
  induction i with
  | zero => intro k xs; exact List.Perm.refl xs
  | succ i ih =>
    intro k xs
    exact (ih (k + 1) _).trans (swapAt2_perm xs (i + 1) (g k % (i + 2)))

/-- The modelled `np.random.shuffle` permutes the rows. -/
theorem npShuffle_perm (g : ℕ → ℕ) (xs : List α) : (npShuffle g xs).Perm xs :=
  fyGo_perm g _ 0 xs

/-- Shuffling preserves the number of rows. -/
theorem npShuffle_length (g : ℕ → ℕ) (xs : List α) :
    (npShuffle g xs).length = xs.length :=
  (npShuffle_perm g xs).length_eq

/-- Taking the row-wise selection of the first components of a filtered row
table is the filter of the first column, when the two columns align. -/
theorem map_fst_filter_zip (p : α → Bool) :
    ∀ (A : List α) (B : List β), A.length = B.length →
      (((A.zip B).filter (fun q => p q.1)).map Prod.fst) = A.filter p := by
  intro A
  induction A with
  | nil => intro B _; rfl
  | cons a A ih =>
    intro B hB
    cases B with
    | nil => cases hB
    | cons b B =>
      have ih2 := ih B (by simpa using hB)
      by_cases hp : p a
      · simp [List.zip_cons_cons, List.filter_cons, hp, ih2]
      · simp [List.zip_cons_cons, List.filter_cons, hp, ih2]

/-- Zipping the two component columns of a row table gives the table back. -/
theorem zip_map_fst_snd_self (l : List (α × β)) :
    (l.map Prod.fst).zip (l.map Prod.snd) = l := by
  rw [List.zip_map']
  simp

/-- Splitting every row of a table at a fixed column and stacking the two
parts back together gives the table back. -/
theorem columnStack_take_drop (S : List (List ℚ)) (F : ℕ) :
    columnStack (S.map (fun r => r.take F)) (S.map (fun r => r.drop F)) = S := by
  induction S with
  | nil => rfl
  | cons r S ih =>
    simp only [columnStack, List.map_cons, List.zipWith_cons_cons, List.take_append_drop]
    exact congrArg (r :: ·) (ih)

/-- Element-wise round trip of the scaling maps on aligned lists. -/
theorem zipWith_scale_roundtrip :
    ∀ (lb m s : List ℚ), lb.length = m.length → s.length = m.length →
      (∀ x ∈ s, x ≠ 0) →
      List.zipWith (fun x ms => x * ms.2 + ms.1)
        (List.zipWith (fun x ms => (x - ms.1) / ms.2) lb (m.zip s)) (m.zip s) = lb := by
  intro lb
  induction lb with
  | nil => intro m s _ _ _; rfl
  | cons x lb ih =>
    intro m s hm hs hnz
    cases m with
    | nil => cases hm
    | cons mv m =>
      cases s with
      | nil => cases hs
      | cons sv s =>
        have hsv : sv ≠ 0 := hnz sv (by simp)
        simp only [List.zip_cons_cons, List.zipWith_cons_cons]
        rw [ih m s (by simpa using hm) (by simpa using hs)
          (fun y hy => hnz y (by simp [hy]))]
        rw [div_mul_cancel₀ _ hsv]
        simp

/-- C2: applying the label normalization `(x - mean) / std` and then the
inverse transform `x * std + mean` reproduces a label vector exactly, for
every label vector aligned with the statistics and every statistics vector
whose standard deviation is nonzero in each dimension (exact rational
arithmetic stands in for the floating-point tolerance). -/
theorem normalize_denormalize_roundtrip (stats : NormStats) (lb : List ℚ)
    (h1 : lb.length = stats.mean.length)
    (h2 : stats.std.length = stats.mean.length)
    (h3 : ∀ x ∈ stats.std, x ≠ 0) :
    denormalize stats (normalize stats lb) = lb := by
  unfold normalize denormalize
  exact zipWith_scale_roundtrip lb stats.mean stats.std h1 h2 h3

/-- Witness for C2 at a concrete label vector and concrete statistics. -/
theorem normalize_denormalize_roundtrip_witness :
    denormalize ⟨[1, 2], [3, 4]⟩ (normalize ⟨[1, 2], [3, 4]⟩ [5, 6]) = [5, 6] :=
  normalize_denormalize_roundtrip ⟨[1, 2], [3, 4]⟩ [5, 6] (by decide) (by decide)
    (by decide)

/-- C3: every spectrum surviving the cleaning step contains no NaN flux at
all, because the NaN replacement (NaN to 0) runs first. -/
theorem preprocess_no_nan (spectra : List Spectrum) (labels : List (List ℚ)) :
    ∀ s ∈ (preprocess spectra labels).1, ∀ f ∈ s, f ≠ none := by
  intro s hs f hf
  unfold preprocess at hs
  obtain ⟨p, hp, rfl⟩ := List.mem_map.mp hs
  have hp2 := (List.mem_filter.mp hp).1
  have h1 : p.1 ∈ spectra.map fixNaN := (List.of_mem_zip hp2).1
  obtain ⟨s0, _, heq⟩ := List.mem_map.mp h1
  rw [← heq] at hf
  unfold fixNaN at hf
  obtain ⟨f0, _, rfl⟩ := List.mem_map.mp hf
  exact Option.some_ne_none _

/-- Witness for C3: a NaN-bearing input spectrum survives cleaning with its
NaN replaced, and the surviving entry is not NaN. -/
theorem preprocess_no_nan_witness : (some (0 : ℚ) : Flux) ≠ none :=
  preprocess_no_nan [[none, some 1]] [[0]] [some 0, some 1]
    (by
      simp only [preprocess, fixNaN, List.map_cons, List.map_nil, Option.getD]
      norm_num [List.filter, keepSpec, listVar, listMean, specVals, fluxVal])
    (some 0) (by decide)

/-- C4: the cleaning step keeps exactly the rows whose post-NaN-replacement
spectrum has nonzero variance, and its output length is the input length
minus the number of zero-variance spectra. -/
theorem preprocess_filters_zero_variance (spectra : List Spectrum)
    (labels : List (List ℚ)) (h : labels.length = spectra.length) :
    (preprocess spectra labels).1 = (spectra.map fixNaN).filter keepSpec ∧
    (preprocess spectra labels).1.length =
      spectra.length -
        (spectra.map fixNaN).countP (fun s => decide (listVar (specVals s) = 0)) := by
  have hlen : (spectra.map fixNaN).length = labels.length := by simpa using h.symm
  have hfst : (preprocess spectra labels).1 = (spectra.map fixNaN).filter keepSpec :=
    map_fst_filter_zip keepSpec (spectra.map fixNaN) labels hlen
  refine ⟨hfst, ?_⟩
  rw [hfst, ← List.countP_eq_length_filter]
  have hcount := List.length_eq_countP_add_countP (p := keepSpec)
    (l := spectra.map fixNaN)
  have hcompl : (spectra.map fixNaN).countP (fun a => ¬ keepSpec a) =
      (spectra.map fixNaN).countP (fun s => decide (listVar (specVals s) = 0)) := by
    apply List.countP_congr
    intro a _
    simp [keepSpec]
  rw [hcompl] at hcount
  have hlen2 : (spectra.map fixNaN).length = spectra.length := by simp
  omega

/-- Witness for C4 at a two-row input with one zero-variance spectrum. -/
theorem preprocess_filters_zero_variance_witness :
    (preprocess [[some 1, some 0], [some 2, some 2]] [[1], [2]]).1 =
      (([[some 1, some 0], [some 2, some 2]] : List Spectrum).map fixNaN).filter
        keepSpec ∧
    (preprocess [[some 1, some 0], [some 2, some 2]] [[1], [2]]).1.length =
      ([[some 1, some 0], [some 2, some 2]] : List Spectrum).length -
        (([[some 1, some 0], [some 2, some 2]] : List Spectrum).map
          fixNaN).countP (fun s => decide (listVar (specVals s) = 0)) :=
  preprocess_filters_zero_variance [[some 1, some 0], [some 2, some 2]]
    [[1], [2]] (by decide)

/-- C7: cleaning preserves the spectrum-to-label pairing of every surviving
entry (the surviving pairs form a sublist of the input pairs, in input
order), and its output is no longer than its input, with the two output
columns of equal length. -/
theorem preprocess_preserves_pairing (spectra : List Spectrum)
    (labels : List (List ℚ)) (_h : labels.length = spectra.length) :
    ((preprocess spectra labels).1.zip (preprocess spectra labels).2).Sublist
      ((spectra.map fixNaN).zip labels) ∧
    (preprocess spectra labels).1.length ≤ spectra.length ∧
    (preprocess spectra labels).1.length = (preprocess spectra labels).2.length := by
  unfold preprocess
  refine ⟨?_, ?_, by simp⟩
  · rw [zip_map_fst_snd_self]
    exact List.filter_sublist _
  · have h1 : (((spectra.map fixNaN).zip labels).filter
        (fun p => keepSpec p.1)).length ≤ ((spectra.map fixNaN).zip labels).length :=
      (List.filter_sublist _).length_le
    simp only [List.map_map, List.length_map]
    calc (((spectra.map fixNaN).zip labels).filter (fun p => keepSpec p.1)).length
        ≤ ((spectra.map fixNaN).zip labels).length := h1
      _ ≤ (spectra.map fixNaN).length := by
          rw [List.length_zip]
          exact Nat.min_le_left _ _
      _ = spectra.length := by simp

/-- Witness for C7 at a concrete two-row input. -/
theorem preprocess_preserves_pairing_witness :
    ((preprocess [[some 1, some 0], [some 2, some 2]] [[1], [2]]).1.zip
        (preprocess [[some 1, some 0], [some 2, some 2]] [[1], [2]]).2).Sublist
      ((([[some 1, some 0], [some 2, some 2]] : List Spectrum).map fixNaN).zip
        [[1], [2]]) ∧
    (preprocess [[some 1, some 0], [some 2, some 2]] [[1], [2]]).1.length ≤
      ([[some 1, some 0], [some 2, some 2]] : List Spectrum).length ∧
    (preprocess [[some 1, some 0], [some 2, some 2]] [[1], [2]]).1.length =
      (preprocess [[some 1, some 0], [some 2, some 2]] [[1], [2]]).2.length :=
  preprocess_preserves_pairing [[some 1, some 0], [some 2, some 2]] [[1], [2]]
    (by decide)

/-- Counterexample for C6: on statistics with a zero standard deviation the
spec's `apply` raises, but the code's `normalize` does not fail — it performs
the unguarded element-wise division and returns a full-length result
vector. -/
theorem normalize_no_error_counterexample :
    isErrorDeg (applySpec ⟨[0], [0]⟩ [1]) = true ∧
    isErrorDeg (normalizeE ⟨[0], [0]⟩ [1]) = false ∧
    (normalize ⟨[0], [0]⟩ [1]).length = 1 := by
  refine ⟨?_, rfl, rfl⟩
  norm_num [applySpec, isErrorDeg]

/-- C6 amended: the code's `normalize` performs the element-wise division for
every statistics vector, including degenerate ones, and never raises a
`DegenerateDimensionError`; it agrees with the spec's error-raising `apply`
exactly on the non-degenerate statistics. -/
theorem normalize_never_raises (stats : NormStats) (lb : List ℚ) :
    isErrorDeg (normalizeE stats lb) = false ∧
    ((∀ x ∈ stats.std, x ≠ 0) → applySpec stats lb = normalizeE stats lb) := by
  refine ⟨rfl, ?_⟩
  intro hnz
  unfold applySpec normalizeE
  have : stats.std.any (fun s => decide (s = 0)) = false := by
    rw [List.any_eq_false]
    intro x hx
    simpa using hnz x hx
  rw [this]
  simp

/-- Witness for C6 amended at non-degenerate statistics. -/
theorem normalize_never_raises_witness :
    isErrorDeg (normalizeE ⟨[1], [2]⟩ [3]) = false ∧
    applySpec ⟨[1], [2]⟩ [3] = normalizeE ⟨[1], [2]⟩ [3] :=
  ⟨(normalize_never_raises ⟨[1], [2]⟩ [3]).1,
   (normalize_never_raises ⟨[1], [2]⟩ [3]).2 (by decide)⟩

/-- C8: with an ensemble size below two the error propagator refuses to
produce an uncertainty estimate and fails with `InsufficientSamplesError`,
whatever the model interface would answer. -/
theorem errorPropagate_insufficient (stats : NormStats) (K : ℕ)
    (predict : ℕ → Except Unit (List ℚ)) (h : K < 2) :
    errorPropagate stats K predict = Except.error PropError.insufficientSamples := by
  unfold errorPropagate
  rw [if_pos h]

/-- Witness for C8 at the ensemble size one named by the claim. -/
theorem errorPropagate_insufficient_witness :
    errorPropagate ⟨[0], [1]⟩ 1 (fun _ => Except.ok [0]) =
      Except.error PropError.insufficientSamples :=
  errorPropagate_insufficient ⟨[0], [1]⟩ 1 (fun _ => Except.ok [0]) (by decide)

/-- C9: the persisted statistics array has exactly two rows, the means in
row 0 and the standard deviations in row 1; the label dimension is read back
as the column count; and loading reproduces exactly the statistics the
normalization then applies. -/
theorem stats_persistence_roundtrip : ∀ s : NormStats,
    (saveStats s).length = 2 ∧
    (saveStats s).getD 0 [] = s.mean ∧
    (saveStats s).getD 1 [] = s.std ∧
    loadStats (saveStats s) = s ∧
    numLabelsOf (saveStats s) = s.mean.length ∧
    ∀ lb, normalize (loadStats (saveStats s)) lb = normalize s lb := by
  intro s
  exact ⟨rfl, rfl, rfl, rfl, rfl, fun lb => rfl⟩

/-- Counterexample for C5: the split has no seed input at all — its
randomness is numpy's ambient global generator state, modelled by the draw
stream.  With every explicit input identical (rows, train count, column
split), two different ambient states yield different Train sets, so the
result is not a function of an explicitly passed seed. -/
theorem split_global_state_counterexample :
    splitData (fun _ => 0) 1 2 [[1, 2], [3, 4]] [[10], [20]] ≠
      splitData (fun _ => 1) 1 2 [[1, 2], [3, 4]] [[10], [20]] := by
  decide

/-- C5 amended: the split is deterministic relative to the ambient global
generator state — two runs over the same input rows that read the same
ambient draw stream produce identical Train and CrossValidation partitions;
reproducibility holds only relative to that unseeded global state, not
relative to an explicit seed argument, which the code does not have. -/
theorem split_deterministic_in_state (g1 g2 : ℕ → ℕ) (t : ℚ)
    (spectra : List Spectrum) (labels : List (List ℚ))
    (h : ∀ n, g1 n = g2 n) :
    pipeline g1 t spectra labels = pipeline g2 t spectra labels := by
  have hg : g1 = g2 := funext h
  rw [hg]

/-- Witness for C5 amended: two runs reading the zero draw stream. -/
theorem split_deterministic_in_state_witness :
    pipeline (fun _ => 0) (9/10) [[some 0, some 1]] [[7]] =
      pipeline (fun k => k - k) (9/10) [[some 0, some 1]] [[7]] :=
  split_deterministic_in_state (fun _ => 0) (fun k => k - k) (9/10)
    [[some 0, some 1]] [[7]] (fun n => (Nat.sub_self n).symm)

/-- When every input spectrum passes the variance filter, cleaning only
replaces the NaN entries and keeps both columns whole. -/
theorem preprocess_all_keep (spectra : List Spectrum) (labels : List (List ℚ))
    (h1 : labels.length = spectra.length)
    (h2 : ∀ s ∈ spectra, keepSpec (fixNaN s) = true) :
    preprocess spectra labels = (spectra.map fixNaN, labels) := by
  unfold preprocess
  have hall : ∀ p ∈ (spectra.map fixNaN).zip labels, keepSpec p.1 = true := by
    intro p hp
    obtain ⟨s0, hs0, heq⟩ := List.mem_map.mp (List.of_mem_zip hp).1
    rw [← heq]
    exact h2 s0 hs0
  rw [List.filter_eq_self.mpr hall]
  exact Prod.ext
    (List.map_fst_zip _ _ (by simp [h1]))
    (List.map_snd_zip _ _ (by simp [h1]))

/-- Row counts of the four split arrays, in terms of the stacked row count
and the requested train count. -/
theorem splitData_lengths (g : ℕ → ℕ) (nT F : ℕ) (A B : List (List ℚ)) :
    (splitData g nT F A B).trainSpectra.length = min nT (min A.length B.length) ∧
    (splitData g nT F A B).trainLabels.length = min nT (min A.length B.length) ∧
    (splitData g nT F A B).cvSpectra.length = min A.length B.length - nT ∧
    (splitData g nT F A B).cvLabels.length = min A.length B.length - nT := by
  have hs : (npShuffle g (columnStack A B)).length = min A.length B.length := by
    rw [npShuffle_length]
    simp [columnStack]
  unfold splitData
  simp [List.length_take, List.length_drop, hs]

/-- The Train rows followed by the CrossValidation rows are a permutation of
the stacked input rows: the split is a partition of its input. -/
theorem splitData_partition (g : ℕ → ℕ) (nT F : ℕ) (A B : List (List ℚ)) :
    (columnStack (splitData g nT F A B).trainSpectra
        (splitData g nT F A B).trainLabels ++
      columnStack (splitData g nT F A B).cvSpectra
        (splitData g nT F A B).cvLabels).Perm (columnStack A B) := by
  unfold splitData
  simp only
  rw [columnStack_take_drop, columnStack_take_drop, List.take_append_drop]
  exact npShuffle_perm g (columnStack A B)

/-- C1: on a cleaned reference set of size `N` (every spectrum passes the
variance filter) and a train fraction `t` in `[0, 1]`, the split takes the
first `floor(t * N)` permuted rows as Train and the remaining
`N - floor(t * N)` rows as CrossValidation, and Train plus CrossValidation
is a permutation (a partition) of the filtered input rows. -/
theorem split_partition_sizes (g : ℕ → ℕ) (t : ℚ) (spectra : List Spectrum)
    (labels : List (List ℚ))
    (h1 : labels.length = spectra.length)
    (h2 : ∀ s ∈ spectra, keepSpec (fixNaN s) = true)
    (_h3 : 0 ≤ t) (h4 : t ≤ 1) :
    (pipeline g t spectra labels).trainSpectra.length =
      (⌊t * (spectra.length : ℚ)⌋).toNat ∧
    (pipeline g t spectra labels).trainLabels.length =
      (⌊t * (spectra.length : ℚ)⌋).toNat ∧
    (pipeline g t spectra labels).cvSpectra.length =
      spectra.length - (⌊t * (spectra.length : ℚ)⌋).toNat ∧
    (pipeline g t spectra labels).cvLabels.length =
      spectra.length - (⌊t * (spectra.length : ℚ)⌋).toNat ∧
    (columnStack (pipeline g t spectra labels).trainSpectra
        (pipeline g t spectra labels).trainLabels ++
      columnStack (pipeline g t spectra labels).cvSpectra
        (pipeline g t spectra labels).cvLabels).Perm
      (columnStack ((preprocess spectra labels).1.map specVals)
        (preprocess spectra labels).2) := by
  have hc := preprocess_all_keep spectra labels h1 h2
  have hA : ((preprocess spectra labels).1.map specVals).length = spectra.length := by
    rw [hc]
    simp
  have hB : (preprocess spectra labels).2.length = spectra.length := by
    rw [hc]
    exact h1
  have hnt : numTrainOf t labels.length = (⌊t * (spectra.length : ℚ)⌋).toNat := by
    rw [numTrainOf, h1]
  have hts : t * (spectra.length : ℚ) ≤ (spectra.length : ℚ) :=
    mul_le_of_le_one_left (by positivity) h4
  have hle : (⌊t * (spectra.length : ℚ)⌋).toNat ≤ spectra.length := by
    rw [Int.toNat_le]
    calc ⌊t * (spectra.length : ℚ)⌋ ≤ ⌊((spectra.length : ℚ))⌋ :=
          Int.floor_le_floor hts
      _ = (spectra.length : ℤ) := Int.floor_natCast _
  obtain ⟨l1, l2, l3, l4⟩ := splitData_lengths g (numTrainOf t labels.length)
    (spectra.headD []).length ((preprocess spectra labels).1.map specVals)
    (preprocess spectra labels).2
  rw [hA, hB, Nat.min_self, hnt] at l1 l2 l3 l4
  rw [min_eq_left hle] at l1 l2
  unfold pipeline
  rw [hnt]
  exact ⟨l1, l2, l3, l4, splitData_partition g _ _ _ _⟩

/-- Witness for C1 at the sizes named by the claim: a cleaned reference set
of 1000 rows with train fraction 0.9 splits into 900 Train rows and 100
CrossValidation rows. -/
theorem split_partition_sizes_witness :
    (pipeline (fun _ => 0) (9/10) (List.replicate 1000 [some 0, some 1])
      (List.replicate 1000 [0])).trainSpectra.length = 900 ∧
    (pipeline (fun _ => 0) (9/10) (List.replicate 1000 [some 0, some 1])
      (List.replicate 1000 [0])).cvSpectra.length = 100 := by
  have h := split_partition_sizes (fun _ => 0) (9/10)
    (List.replicate 1000 [some 0, some 1]) (List.replicate 1000 [0])
    (by rw [List.length_replicate, List.length_replicate])
    (fun s hs => by
      rw [List.eq_of_mem_replicate hs]
      simp only [fixNaN, List.map_cons, List.map_nil, Option.getD]
      norm_num [keepSpec, listVar, listMean, specVals, fluxVal])
    (by norm_num) (by norm_num)
  have hfl : ((⌊(9/10 : ℚ) *
      (((List.replicate 1000 ([some 0, some 1] : Spectrum)).length : ℕ) : ℚ)⌋).toNat)
      = 900 := by
    rw [List.length_replicate]
    norm_num
    decide
  refine ⟨h.1.trans hfl, h.2.2.1.trans ?_⟩
  rw [hfl, List.length_replicate]

/-- Stacking the value column and the label column of a row table appends
the two halves of each row. -/
theorem columnStack_map_pair (R : List (Spectrum × List ℚ)) :
    columnStack ((R.map Prod.fst).map specVals) (R.map Prod.snd) =
      R.map (fun q => specVals q.1 ++ q.2) := by
  induction R with
  | nil => rfl
  | cons q R ih =>
    simp only [columnStack, List.map_cons, List.zipWith_cons_cons] at ih ⊢
    exact congrArg _ ih

/-- Every row of the shuffled stacked table is a cleaned input pair laid out
as spectrum values followed by label values, with the spectrum half exactly
`num_fluxes` wide. -/
theorem shuffled_row_from_input (g : ℕ → ℕ) (spectra : List Spectrum)
    (labels : List (List ℚ))
    (hF : ∀ s ∈ spectra, s.length = (spectra.headD []).length) :
    ∀ row ∈ npShuffle g (columnStack
        ((preprocess spectra labels).1.map specVals) (preprocess spectra labels).2),
      ∃ q ∈ (spectra.map (fun s => specVals (fixNaN s))).zip labels,
        row = q.1 ++ q.2 ∧ q.1.length = (spectra.headD []).length := by
  intro row hrow
  have hrow2 : row ∈ columnStack ((preprocess spectra labels).1.map specVals)
      (preprocess spectra labels).2 := ((npShuffle_perm g _).mem_iff).1 hrow
  rw [preprocess, columnStack_map_pair] at hrow2
  obtain ⟨q0, hq0, heq⟩ := List.mem_map.mp hrow2
  have hq1 : q0 ∈ (spectra.map fixNaN).zip labels :=
    (List.filter_sublist _).subset hq0
  obtain ⟨s0, hs0, hs0eq⟩ := List.mem_map.mp (List.of_mem_zip hq1).1
  refine ⟨(specVals q0.1, q0.2), ?_, heq.symm, ?_⟩
  · have hmm : spectra.map (fun s => specVals (fixNaN s))
        = (spectra.map fixNaN).map specVals := by
      rw [List.map_map]
      rfl
    rw [hmm, List.zip_map_left]
    exact List.mem_map.mpr ⟨q0, hq1, rfl⟩
  · show (specVals q0.1).length = _
    rw [← hs0eq]
    simp only [specVals, fixNaN, List.length_map]
    exact hF s0 hs0

/-- C10: the shuffle and the split move whole stacked rows, so every
Train or CrossValidation entry pairs a (cleaned) spectrum with exactly the
label vector that sat in the same input row: each output pair occurs in the
index-aligned zip of the NaN-fixed input spectra with the input labels. -/
theorem shuffle_preserves_row_pairing (g : ℕ → ℕ) (t : ℚ)
    (spectra : List Spectrum) (labels : List (List ℚ))
    (_h1 : labels.length = spectra.length)
    (hF : ∀ s ∈ spectra, s.length = (spectra.headD []).length) :
    ∀ p ∈ ((pipeline g t spectra labels).trainSpectra.zip
          (pipeline g t spectra labels).trainLabels) ++
        ((pipeline g t spectra labels).cvSpectra.zip
          (pipeline g t spectra labels).cvLabels),
      p ∈ (spectra.map (fun s => specVals (fixNaN s))).zip labels := by
  intro p hp
  unfold pipeline splitData at hp
  dsimp only at hp
  rw [List.zip_map', List.zip_map'] at hp
  rcases List.mem_append.mp hp with hp2 | hp2
  · obtain ⟨row, hrow, rfl⟩ := List.mem_map.mp hp2
    have hrowS := List.take_subset _ _ hrow
    obtain ⟨q, hq, hroweq, hlen⟩ :=
      shuffled_row_from_input g spectra labels hF row hrowS
    rw [hroweq, List.take_left' hlen, List.drop_left' hlen]
    simpa using hq
  · obtain ⟨row, hrow, rfl⟩ := List.mem_map.mp hp2
    have hrowS := List.drop_subset _ _ hrow
    obtain ⟨q, hq, hroweq, hlen⟩ :=
      shuffled_row_from_input g spectra labels hF row hrowS
    rw [hroweq, List.take_left' hlen, List.drop_left' hlen]
    simpa using hq

/-- Witness for C10: in a concrete shuffled split, a Train entry carries the
label originally stacked with its spectrum. -/
theorem shuffle_preserves_row_pairing_witness :
    (([3, 4] : List ℚ), ([20] : List ℚ)) ∈
      (([[some 1, some 2], [some 3, some 4]] : List Spectrum).map
        (fun s => specVals (fixNaN s))).zip [[10], [20]] := by
  have hmem :
      ((([3, 4] : List ℚ), ([20] : List ℚ)) ∈
        ((pipeline (fun _ => 0) (1/2) [[some 1, some 2], [some 3, some 4]]
            [[10], [20]]).trainSpectra.zip
          (pipeline (fun _ => 0) (1/2) [[some 1, some 2], [some 3, some 4]]
            [[10], [20]]).trainLabels) ++
        ((pipeline (fun _ => 0) (1/2) [[some 1, some 2], [some 3, some 4]]
            [[10], [20]]).cvSpectra.zip
          (pipeline (fun _ => 0) (1/2) [[some 1, some 2], [some 3, some 4]]
            [[10], [20]]).cvLabels)) := by
    have hpre : preprocess [[some 1, some 2], [some 3, some 4]] [[10], [20]]
        = ([[some 1, some 2], [some 3, some 4]], [[10], [20]]) := by
      simp only [preprocess, fixNaN, List.map_cons, List.map_nil, Option.getD]
      norm_num [List.filter, keepSpec, listVar, listMean, specVals, fluxVal]
    have hnt : numTrainOf (1/2) 2 = 1 := by
      norm_num [numTrainOf]
      try decide
    rw [pipeline, hpre]
    norm_num [splitData, hnt, specVals, fluxVal, columnStack, npShuffle, fyGo,
      swapAt2]
  exact shuffle_preserves_row_pairing (fun _ => 0) (1/2)
    [[some 1, some 2], [some 3, some 4]] [[10], [20]] (by decide) (by decide)
    ([3, 4], [20]) hmem


end StarNet
